import Mathlib

/-!
Verification of the linehaul ingestion server (`linehaul/server.py`).

The development shallowly embeds the non-I/O functions of the server —
`parse_line`, `extract_item_date`, `compute_batches` — and explicit-state /
trace models of the I/O functions `send_batch` (tenacity retry loop),
`sender` (one accumulation cycle of the batch dispatcher) and
`handle_connection` (chunked receive loop over the line framer).

Python strings are modelled as lists of Unicode code points (`List Nat`),
byte strings as lists of byte values.  The external collaborators
(syslog envelope parsing, domain event parsing, the line framer, the sink
client, the uuid generator) are parameters of the embedding, as the server
module only calls into them.
-/

/-! ## Calendar model

Events carry timezone-aware timestamps (`arrow.Arrow`).  The batching code
only ever inspects the timestamp through `format("YYYYMDDD")`, which reads
the calendar year, month and day-of-year of the timestamp, so a timestamp
is modelled as a Gregorian calendar date plus an (otherwise unused)
time-of-day in seconds. -/

/-- Gregorian leap-year test, as implemented by Python's `calendar.isleap`
and used by `datetime.timetuple` when computing `tm_yday`. -/
def isLeap (y : Nat) : Bool :=
  (y % 4 == 0 && y % 100 != 0) || y % 400 == 0

/-- Length of month `m` (1-12) in a (non-)leap year; 0 outside 1-12. -/
def daysInMonth (leap : Bool) (m : Nat) : Nat :=
  match m with
  | 1 => 31
  | 2 => if leap then 29 else 28
  | 3 => 31
  | 4 => 30
  | 5 => 31
  | 6 => 30
  | 7 => 31
  | 8 => 31
  | 9 => 30
  | 10 => 31
  | 11 => 30
  | 12 => 31
  | _ => 0

/-- Number of days in the months strictly before month `m`. -/
def daysBefore (leap : Bool) : Nat → Nat
  | 0 => 0
  | m + 1 => daysBefore leap m + daysInMonth leap m

/-- Calendar date (proleptic Gregorian, as in Python `datetime`). -/
structure Date where
  year : Nat
  month : Nat
  day : Nat
deriving DecidableEq, Repr

/-- Validity of a date in Python's `datetime` range (years 1-9999). -/
def Date.validb (d : Date) : Bool :=
  1 ≤ d.year && d.year ≤ 9999 &&
  1 ≤ d.month && d.month ≤ 12 &&
  1 ≤ d.day && d.day ≤ daysInMonth (isLeap d.year) d.month

/-- Day of the year (`tm_yday`, 1-366) of a date. -/
def dayOfYear (d : Date) : Nat :=
  daysBefore (isLeap d.year) d.month + d.day

/-- Timezone-aware timestamp: its calendar date plus the second of the day.
Only the date part is observable through the `"YYYYMDDD"` format used by
`extract_item_date`. -/
structure Timestamp where
  date : Date
  secondOfDay : Nat
deriving DecidableEq, Repr

/-- Decoded download event: a timestamp plus the remaining typed fields of
the download record, abstracted into an opaque payload. -/
structure Event where
  timestamp : Timestamp
  payload : Nat
deriving DecidableEq, Repr

/-! ## Decimal formatting

The arrow format tokens `YYYY`, `M` and `DDD` all render a natural number
in decimal with no zero padding (`YYYY` renders the full year through
`locale.year_full`, which is plain `"{0}".format(year)`).  `natDecimal`
renders most-significant digit first; the fuel argument makes it
structurally recursive so that it evaluates inside the kernel. -/

def natDecimalAux : Nat → Nat → List Nat
  | 0, _ => []
  | fuel + 1, n => if n < 10 then [n] else natDecimalAux fuel (n / 10) ++ [n % 10]

/-- Decimal digit string of `n` (as a list of digit values), exactly the
characters produced by Python `str(n)` for a natural number. -/
def natDecimal (n : Nat) : List Nat :=
  natDecimalAux (n + 1) n

/-- Value of a digit string read back as a number (left fold base 10). -/
def digitsVal (l : List Nat) : Nat :=
  l.foldl (fun a d => 10 * a + d) 0

/-! ## `extract_item_date` (server.py lines 67-68)

`item.timestamp.format("YYYYMDDD")` tokenizes as `YYYY` ++ `M` ++ `DDD`:
the unpadded year, the unpadded month number and the unpadded day of the
year. -/

/-- Partition key of an event, the embedding of `extract_item_date`. -/
def extract_item_date (e : Event) : List Nat :=
  natDecimal e.timestamp.date.year ++ natDecimal e.timestamp.date.month ++
    natDecimal (dayOfYear e.timestamp.date)

/-! ## `parse_line` (server.py lines 46-64)

`bytes.decode("utf8")` is modelled by a strict UTF-8 decoder producing the
list of decoded code points (rejecting overlong forms, surrogates and
code points above U+10FFFF, as CPython's strict codec does).  The two
external parsers are parameters: each models a call that either returns a
parsed value or raises `ValueError` (returning `none`), which is the only
failure the `except ValueError` handler in `parse_line` observes. -/

/-- Continuation byte test (`0x80-0xBF`). -/
def isCont (c : Nat) : Bool := 128 ≤ c && c ≤ 191

/-- Allowed first continuation byte after a three-byte leader: `E0` forbids
overlong forms, `ED` forbids surrogates. -/
def cont3ok (b c1 : Nat) : Bool :=
  if b = 224 then 160 ≤ c1 && c1 ≤ 191
  else if b = 237 then 128 ≤ c1 && c1 ≤ 159
  else isCont c1

/-- Allowed first continuation byte after a four-byte leader: `F0` forbids
overlong forms, `F4` forbids code points above U+10FFFF. -/
def cont4ok (b c1 : Nat) : Bool :=
  if b = 240 then 144 ≤ c1 && c1 ≤ 191
  else if b = 244 then 128 ≤ c1 && c1 ≤ 143
  else isCont c1

/-- Strict UTF-8 decoding of a byte string into code points; `none` models
the `UnicodeDecodeError` raised by `bytes.decode("utf8")`. -/
def utf8Decode : List Nat → Option (List Nat)
  | [] => some []
  | b :: bs =>
    if b < 128 then (utf8Decode bs).map (b :: ·)
    else if b < 194 then none
    else if b ≤ 223 then
      match bs with
      | c1 :: bs2 =>
        if isCont c1 then (utf8Decode bs2).map ((64 * (b - 192) + (c1 - 128)) :: ·)
        else none
      | [] => none
    else if b ≤ 239 then
      match bs with
      | c1 :: c2 :: bs3 =>
        if cont3ok b c1 && isCont c2 then
          (utf8Decode bs3).map ((4096 * (b - 224) + 64 * (c1 - 128) + (c2 - 128)) :: ·)
        else none
      | _ => none
    else if b ≤ 244 then
      match bs with
      | c1 :: c2 :: c3 :: bs4 =>
        if cont4ok b c1 && isCont c2 && isCont c3 then
          (utf8Decode bs4).map
            ((262144 * (b - 240) + 4096 * (c1 - 128) + 64 * (c2 - 128) + (c3 - 128)) :: ·)
        else none
      | _ => none
    else none

/-- Exceptions that can escape the embedded functions. -/
inductive PyError where
  | unicodeDecodeError
deriving DecidableEq, Repr

/-- Structured syslog envelope; `parse_line` only reads its message body. -/
structure SyslogMsg where
  message : List Nat
deriving DecidableEq, Repr

/-- Embedding of `parse_line`.  `syslogParse` models
`linehaul.syslog.parser.parse` and `eventParse` models
`linehaul.events.parser.parse`; for each, `none` stands for a raised
`ValueError`, which the `try`/`except ValueError` block turns into a
`None` return.  The initial `line.decode("utf8")` happens before that
`try` block, so its failure is an escaping exception (`Except.error`). -/
def parse_line (syslogParse : List Nat → Option SyslogMsg)
    (eventParse : List Nat → Option Event)
    (token : Option (List Nat)) (line : List Nat) : Except PyError (Option Event) :=
  match utf8Decode line with
  | none => .error .unicodeDecodeError
  | some s =>
    match token with
    | some t =>
      if t.isPrefixOf s then
        .ok ((syslogParse (s.drop t.length)).bind fun msg => eventParse msg.message)
      else .ok none
    | none => .ok ((syslogParse s).bind fun msg => eventParse msg.message)


/-! ## `compute_batches` (server.py lines 71-80)

`sorted(all_items, key=extract_item_date)` is a stable sort by the key
string; lexicographic order on digit strings (`List Nat` under its
lexicographic linear order) is exactly Python's string order on them.
`itertools.groupby` groups consecutive elements with equal keys, and the
code yields `extract_item_date(items[0])` — the key of the first element —
as the group key.  `uuid.uuid4()` is modelled by a draw sequence
`g : Nat → Nat` together with a draw counter: the `i`-th generated
identifier (in generation order) is `g (c + i)`; the freshness assumption
of the spec is the injectivity of `g`. -/

/-- Sort relation used by `sorted(..., key=extract_item_date)`. -/
def eventLE (a b : Event) : Prop :=
  extract_item_date a ≤ extract_item_date b

instance : DecidableRel eventLE := fun a b =>
  inferInstanceAs (Decidable (extract_item_date a ≤ extract_item_date b))

instance : IsTotal Event eventLE := ⟨fun _ _ => le_total _ _⟩

instance : IsTrans Event eventLE := ⟨fun _ _ _ h1 h2 => le_trans h1 h2⟩

/-- Consecutive grouping by key, the embedding of `itertools.groupby`
applied to a list: each group is a maximal run of equal-key elements and
is tagged with the key of its first element.  The fuel argument (always
instantiated with the list length) makes it structurally recursive. -/
def pyGroupByAux {α κ : Type} [DecidableEq κ] (key : α → κ) :
    Nat → List α → List (κ × List α)
  | 0, _ => []
  | _, [] => []
  | fuel + 1, a :: rest =>
    (key a, a :: rest.takeWhile (fun x => decide (key x = key a))) ::
      pyGroupByAux key fuel (rest.dropWhile (fun x => decide (key x = key a)))

/-- Grouping of a list into runs of equal keys (`itertools.groupby`). -/
def pyGroupBy {α κ : Type} [DecidableEq κ] (key : α → κ) (l : List α) :
    List (κ × List α) :=
  pyGroupByAux key l.length l

/-- Row of a batch: the `{"insertId": str(uuid.uuid4()), "json": row}`
dictionary built for each serialized event. -/
structure Record where
  insertId : Nat
  json : Event
deriving DecidableEq, Repr

/-- Embedding of `_cattr.unstructure` on a single event.  The converter
re-serializes each event (rendering the timestamp as an epoch float); it
is a per-event re-encoding that neither drops, duplicates nor merges
events, so it is modelled as the identity embedding of events into rows. -/
def unstructure (e : Event) : Event := e

/-- Decoration of the grouped events with freshly drawn insertion
identifiers, threading the draw counter through the groups in generation
order. -/
def assignIds (g : Nat → Nat) : Nat → List (List Nat × List Event) → List (List Nat × List Record)
  | _, [] => []
  | c, (k, rows) :: rest =>
    (k, rows.enum.map fun p => ⟨g (c + p.1), unstructure p.2⟩) ::
      assignIds g (c + rows.length) rest

/-- Embedding of `compute_batches`: sort by partition key, group
consecutive equal keys, and decorate every row with a fresh insertion
identifier drawn from `g` starting at draw counter `c`. -/
def compute_batches (g : Nat → Nat) (c : Nat) (all_items : List Event) :
    List (List Nat × List Record) :=
  assignIds g c (pyGroupBy extract_item_date (List.insertionSort eventLE all_items))

/-- Insertion identifiers generated across a whole `compute_batches`
result, in generation order. -/
def allInsertIds (batches : List (List Nat × List Record)) : List Nat :=
  (batches.map fun b => b.2.map Record.insertId).flatten


/-! ## `send_batch` / `actually_send_batch` (server.py lines 128-180)

A delivery attempt's outcome is a function of its attempt number
(`SinkOutcome`), abstracting `bq.insert_all` under the per-attempt
`trio.fail_after` deadline: `tooSlow` is `trio.TooSlowError` (deadline
exceeded), `brokenStream` is `trio.BrokenStreamError`, `otherErr` is any
other exception, and `ok` is a successful insert.  The tenacity retry
loop (`retry_if_exception_type((TooSlowError, BrokenStreamError))`,
`wait_exponential`, `stop_after_attempt`, `reraise=True`) is modelled as
a structural recursion on the number of remaining permitted attempts,
returning the final outcome, the number of the last attempt made, and the
list of backoff waits slept between attempts. -/

/-- Outcome of one `bq.insert_all` attempt under its deadline. -/
inductive SinkOutcome where
  | ok
  | tooSlow
  | brokenStream
  | otherErr (code : Nat)
deriving DecidableEq, Repr

/-- Exception classes retried by `actually_send_batch`'s tenacity policy. -/
def retryable : SinkOutcome → Bool
  | .tooSlow => true
  | .brokenStream => true
  | _ => false

/-- Backoff produced by `tenacity.wait_exponential(multiplier, max=maxWait)`
after a failed attempt numbered `k`. -/
def wait_exponential (multiplier maxWait : ℚ) (k : Nat) : ℚ :=
  max 0 (min (multiplier * 2 ^ k) maxWait)

/-- Tenacity retry loop starting at attempt number `k` with `fuel`
additional attempts permitted after the current one: a non-`ok` outcome is
retried (after sleeping `wait k`) while it is retryable and attempts
remain, and otherwise becomes the final result (`reraise=True` re-raises
the last exception once `stop_after_attempt` trips).  Returns the final
outcome, the number of the last attempt made, and the waits slept. -/
def tenacityGo (f : Nat → SinkOutcome) (wait : Nat → ℚ) :
    Nat → Nat → SinkOutcome × Nat × List ℚ
  | 0, k => (f k, k, [])
  | fuel + 1, k =>
    match f k with
    | .ok => (.ok, k, [])
    | o =>
      if retryable o then
        let r := tenacityGo f wait fuel (k + 1)
        (r.1, r.2.1, wait k :: r.2.2)
      else (o, k, [])

/-- Observable result of one `send_batch` call: the number of the last
delivery attempt made, the backoff waits slept, whether the batch was
delivered, and the failure recorded in the log when it was dropped
instead.  The model has no re-queue channel: a batch is either delivered
or dropped. -/
structure SendResult where
  attempts : Nat
  waits : List ℚ
  delivered : Bool
  droppedLog : Option SinkOutcome
deriving DecidableEq, Repr

/-- Embedding of `send_batch`: fill the default tuning parameters
(15 attempts, 60 max wait, 0.5 multiplier), run the retry loop from
attempt 1, and catch every escaping failure (`except trio.TooSlowError`
logs a timeout, `except Exception` logs anything else); both handlers
drop the batch and return normally, so the call never produces an
`Except.error`. -/
def send_batch (f : Nat → SinkOutcome) (retry_max_attempts : Option Nat)
    (retry_max_wait retry_multiplier : Option ℚ) : Except SinkOutcome SendResult :=
  let maxAttempts := retry_max_attempts.getD 15
  let maxWait := retry_max_wait.getD 60
  let multiplier := retry_multiplier.getD (1 / 2)
  let r := tenacityGo f (wait_exponential multiplier maxWait) (maxAttempts - 1) 1
  match r.1 with
  | .ok => .ok ⟨r.2.1, r.2.2, true, none⟩
  | .tooSlow => .ok ⟨r.2.1, r.2.2, false, some .tooSlow⟩
  | o => .ok ⟨r.2.1, r.2.2, false, some o⟩

/-! ## `sender` accumulation cycle (server.py lines 200-225)

One iteration of the dispatcher loop is modelled with explicit time: the
queue delivers events at nondecreasing arrival instants, and the
`trio.move_on_after(batch_timeout)` scope around the inner
`while len(batch) < batch_size: batch.append(await q.get())` loop cancels
the pending `q.get()` at the deadline.  `accumulate` returns the events
dequeued during the cycle and whether the cancel scope fired. -/

/-- Accumulation loop of one dispatcher cycle: dequeue the next arrival
while fewer than `size` events are collected and the arrival instant is
within the deadline; an exhausted queue or a late arrival leaves the loop
blocked in `q.get()` until the deadline cancels it. -/
def accumulate (deadline : ℚ) : Nat → List (ℚ × Event) → List (ℚ × Event) × Bool
  | 0, _ => ([], false)
  | _ + 1, [] => ([], true)
  | size + 1, (t, e) :: rest =>
    if t ≤ deadline then
      let r := accumulate deadline size rest
      ((t, e) :: r.1, r.2)
    else ([], true)

/-- One full dispatcher cycle of `sender`: fill the defaults
(`batch_size=500`, `batch_timeout=30`), accumulate, and hand the
accumulated events to `compute_batches`; each yielded pair becomes one
`nursery.start_soon(send_batch, ...)` task, so the returned list is the
list of send tasks spawned by the cycle. -/
def sender_cycle (g : Nat → Nat) (c : Nat) (batch_size : Option Nat)
    (batch_timeout : Option ℚ) (start : ℚ) (arrivals : List (ℚ × Event)) :
    List (List Nat × List Record) :=
  let size := batch_size.getD 500
  let timeout := batch_timeout.getD 30
  compute_batches g c ((accumulate (start + timeout) size arrivals).1.map Prod.snd)

/-! ## `handle_connection` (server.py lines 88-125)

Modelled from the spec: the `LineReceiver` of `linehaul.protocol` is not
part of the embedded source, so it is abstracted exactly as §6 of the
design describes it — constructed with a decode callback and a maximum
line length, it accepts a chunk of bytes and yields zero or more decoded
events, signals the two distinct terminal conditions (oversized line,
truncated line) as exceptions, and exposes a close operation that can
itself signal truncation.  `recv` is `lr.recieve_data` over an abstract
framer state and `close` is `lr.close`.  A connection's byte stream is
the list of non-empty `receive_some` results followed by the implicit
empty read (end of stream; `trio.BrokenStreamError` on receive is mapped
to the same empty read by the code). -/

/-- Terminal conditions signalled by the line framer. -/
inductive FramingError where
  | bufferTooLarge
  | truncatedLine
deriving DecidableEq, Repr

/-- Result of one `handle_connection` run: the events pushed to the queue
in order, the framing error that ended the connection (if any), whether
the stream was closed, and the grace period bounding the close. -/
structure ConnResult where
  pushed : List Event
  framingError : Option FramingError
  closed : Bool
  closeGrace : ℚ
deriving DecidableEq, Repr

/-- Receive loop over the framed chunks: each chunk is fed to the framer
and the yielded events are pushed; a framing signal aborts the loop at
once, pushing nothing further. -/
def run_chunks {σ : Type} (recv : σ → List Nat → Except FramingError (σ × List Event)) :
    σ → List (List Nat) → List Event × Except FramingError σ
  | s, [] => ([], .ok s)
  | s, chunk :: rest =>
    match recv s chunk with
    | .error e => ([], .error e)
    | .ok (s', evs) =>
      let r := run_chunks recv s' rest
      (evs ++ r.1, r.2)

/-- Embedding of `handle_connection`: drive the framer over the received
chunks, then perform the final empty read and `lr.close()`; the
`except BufferTooLargeError` / `except TruncatedLineError` handlers drop
the connection on a framing signal, and the `finally` block closes the
stream under a `trio.move_on_after(30)` grace period on every path. -/
def handle_connection {σ : Type}
    (recv : σ → List Nat → Except FramingError (σ × List Event))
    (close : σ → Except FramingError Unit) (s : σ) (chunks : List (List Nat)) :
    ConnResult :=
  let r := run_chunks recv s chunks
  match r.2 with
  | .error e => ⟨r.1, some e, true, 30⟩
  | .ok s1 =>
    match recv s1 [] with
    | .error e => ⟨r.1, some e, true, 30⟩
    | .ok (s2, evs) =>
      match close s2 with
      | .error e => ⟨r.1 ++ evs, some e, true, 30⟩
      | .ok _ => ⟨r.1 ++ evs, none, true, 30⟩

/-! ## Helper lemmas -/

/-- Under permanently retryable failure, the tenacity loop consumes all of
its fuel: starting at attempt `k` with `fuel` retries permitted it makes
the attempts `k, k+1, ..., k+fuel`, sleeps exactly the `fuel` waits
`wait k, ..., wait (k+fuel-1)` between them, and ends with the outcome of
the last attempt. -/
theorem tenacityGo_allFail (f : Nat → SinkOutcome) (wait : Nat → ℚ)
    (hf : ∀ k, f k = .tooSlow ∨ f k = .brokenStream) :
    ∀ fuel k, tenacityGo f wait fuel k =
      (f (k + fuel), k + fuel, (List.range fuel).map fun i => wait (k + i)) := by
  intro fuel
  induction fuel with
  | zero => intro k; simp [tenacityGo]
  | succ n ih =>
    intro k
    have hr : retryable (f k) = true := by
      rcases hf k with h | h <;> simp [h, retryable]
    have hno : f k ≠ .ok := by
      rcases hf k with h | h <;> simp [h]
    rw [tenacityGo]
    rcases hfk : f k with _ | _ | _ | code
    · exact absurd hfk hno
    · rw [ih (k + 1)]
      simp [hfk, retryable, List.range_succ_eq_map, Nat.add_assoc, Nat.add_comm 1]
    · rw [ih (k + 1)]
      simp [hfk, retryable, List.range_succ_eq_map, Nat.add_assoc, Nat.add_comm 1]
    · rw [hfk] at hr; simp [retryable] at hr

/-- Every exponential backoff wait is nonnegative and capped at `maxWait`
when `maxWait` is nonnegative. -/
theorem wait_exponential_bounds (multiplier maxWait : ℚ) (h : 0 ≤ maxWait) (k : Nat) :
    0 ≤ wait_exponential multiplier maxWait k ∧ wait_exponential multiplier maxWait k ≤ maxWait := by
  unfold wait_exponential
  constructor
  · exact le_max_left 0 _
  · exact max_le h (min_le_right _ _)

/-- A receive loop that hit a framing signal is unaffected by any bytes
that arrive afterwards: the signal aborts the loop at once. -/
theorem run_chunks_append_error {σ : Type}
    (recv : σ → List Nat → Except FramingError (σ × List Event)) (s : σ)
    (l1 l2 : List (List Nat)) (e : FramingError)
    (h : (run_chunks recv s l1).2 = .error e) :
    run_chunks recv s (l1 ++ l2) = run_chunks recv s l1 := by
  induction l1 generalizing s with
  | nil => simp [run_chunks] at h
  | cons c cs ih =>
    rw [List.cons_append, run_chunks]
    rw [run_chunks] at h ⊢
    rcases hr : recv s c with e' | ⟨s', evs⟩
    · simp [hr]
    · rw [hr] at h
      dsimp only at h ⊢
      rw [ih s' h]

/-! ## Claim theorems -/

/-- Claim C1, counterexample: the single byte `0xFF` is not valid UTF-8;
on it `parse_line` does not return "one decoded Event or nothing" — the
`line.decode("utf8")` call sits before the `try` block, so the decode
failure escapes `parse_line` as an exception, contradicting the claim
that no error escapes for any input line. -/
theorem parse_line_nonUtf8_counterexample :
    parse_line (fun _ => none) (fun _ => none) none [255] =
      .error .unicodeDecodeError := rfl

/-- Claim C1, amended: for every line that decodes as UTF-8, `parse_line`
returns either one decoded event or nothing and no error escapes; a line
that is not valid UTF-8 instead raises a decode error that escapes
`parse_line`. -/
theorem parse_line_decode_boundary (syslogParse : List Nat → Option SyslogMsg)
    (eventParse : List Nat → Option Event) (token : Option (List Nat))
    (line : List Nat) :
    (∀ s, utf8Decode line = some s →
      ∃ o, parse_line syslogParse eventParse token line = .ok o) ∧
    (utf8Decode line = none →
      parse_line syslogParse eventParse token line = .error .unicodeDecodeError) := by
  constructor
  · intro s hs
    unfold parse_line
    rw [hs]
    match token with
    | none => exact ⟨_, rfl⟩
    | some t =>
      by_cases hp : t.isPrefixOf s
      · simp [hp]
      · simp [hp]
  · intro hn
    unfold parse_line
    rw [hn]

/-- Claim C1, witness: a valid ASCII line yields a normal return while the
invalid byte `0xFF` yields an escaping decode error. -/
theorem parse_line_decode_boundary_witness :
    (∃ o, parse_line (fun _ => none) (fun _ => none) none [104] = .ok o) ∧
    parse_line (fun _ => none) (fun _ => none) none [255] =
      .error .unicodeDecodeError :=
  ⟨(parse_line_decode_boundary (fun _ => none) (fun _ => none) none [104]).1 [104] rfl,
   (parse_line_decode_boundary (fun _ => none) (fun _ => none) none [255]).2 rfl⟩

/-- Claim C6: with a configured token, a decoded line that does not start
with the token yields no event, and a decoded line that does start with it
has exactly the token prefix stripped before the syslog envelope parse
runs on the remainder. -/
theorem parse_line_token_gate (syslogParse : List Nat → Option SyslogMsg)
    (eventParse : List Nat → Option Event) (t line s : List Nat)
    (hdec : utf8Decode line = some s) :
    (t.isPrefixOf s = false →
      parse_line syslogParse eventParse (some t) line = .ok none) ∧
    (t.isPrefixOf s = true →
      parse_line syslogParse eventParse (some t) line =
        .ok ((syslogParse (s.drop t.length)).bind fun msg => eventParse msg.message)) := by
  unfold parse_line
  rw [hdec]
  constructor
  · intro hp; simp [hp]
  · intro hp; simp [hp]

/-- Claim C6, witness: for the decoded line `"ab"`, the token `"c"` is
rejected with no event and the token `"a"` is stripped before the
envelope parse. -/
theorem parse_line_token_gate_witness :
    (parse_line (fun m => some ⟨m⟩) (fun _ => none) (some [99]) [97, 98] = .ok none) ∧
    parse_line (fun m => some ⟨m⟩) (fun _ => none) (some [97]) [97, 98] =
      .ok ((some (⟨[98]⟩ : SyslogMsg)).bind fun msg =>
        (fun _ => (none : Option Event)) msg.message) :=
  ⟨(parse_line_token_gate (fun m => some ⟨m⟩) (fun _ => none) [99] [97, 98] [97, 98]
      rfl).1 rfl,
   (parse_line_token_gate (fun m => some ⟨m⟩) (fun _ => none) [97] [97, 98] [97, 98]
      rfl).2 rfl⟩

/-- Claim C10: configuring the token as the empty string is the same as
configuring no token at all — the prefix test vacuously succeeds on every
decoded line and stripping removes nothing, so every line is processed
identically. -/
theorem parse_line_empty_token_eq_none (syslogParse : List Nat → Option SyslogMsg)
    (eventParse : List Nat → Option Event) (line : List Nat) :
    parse_line syslogParse eventParse (some []) line =
      parse_line syslogParse eventParse none line := by
  unfold parse_line
  rcases h : utf8Decode line with _ | s
  · rfl
  · simp [List.isPrefixOf]

/-- Claim C5: whatever the per-attempt outcomes are, `send_batch` returns
normally — the `except trio.TooSlowError` and `except Exception` handlers
catch every failure of the attempt sequence — and when delivery did not
succeed the batch is recorded as dropped in the log, not re-queued (the
model has no re-queue channel at all). -/
theorem send_batch_swallows_failures (f : Nat → SinkOutcome)
    (retry_max_attempts : Option Nat) (retry_max_wait retry_multiplier : Option ℚ) :
    ∃ res, send_batch f retry_max_attempts retry_max_wait retry_multiplier = .ok res ∧
      (res.delivered = true ∨
        (res.delivered = false ∧ res.droppedLog.isSome = true)) := by
  unfold send_batch
  dsimp only
  split
  · exact ⟨_, rfl, Or.inl rfl⟩
  · exact ⟨_, rfl, Or.inr ⟨rfl, rfl⟩⟩
  · exact ⟨_, rfl, Or.inr ⟨rfl, rfl⟩⟩

/-- Claim C4: if every delivery attempt fails with a timeout or a broken
stream, `send_batch` with default tuning makes exactly 15 attempts and
then returns normally with the batch dropped; exactly 14 backoff waits
are slept — one between each consecutive pair of attempts and none before
the first — and every wait is capped at the default maximum of 60. -/
theorem send_batch_default_retry_exhaustion (f : Nat → SinkOutcome)
    (hf : ∀ k, f k = .tooSlow ∨ f k = .brokenStream) :
    ∃ res, send_batch f none none none = .ok res ∧
      res.attempts = 15 ∧ res.waits.length = 14 ∧
      res.delivered = false ∧ res.droppedLog.isSome = true ∧
      ∀ w ∈ res.waits, 0 ≤ w ∧ w ≤ 60 := by
  have hw : ∀ w ∈ (List.range 14).map
      (fun i => wait_exponential ((1 : ℚ) / 2) 60 (1 + i)), 0 ≤ w ∧ w ≤ 60 := by
    intro w hmem
    rcases List.mem_map.mp hmem with ⟨i, _, rfl⟩
    exact wait_exponential_bounds _ _ (by norm_num) _
  have h14 : (Option.getD (none : Option Nat) 15) - 1 = 14 := rfl
  simp only [send_batch, Option.getD_none, h14]
  rw [tenacityGo_allFail f _ hf 14 1]
  have h15 : (1 : Nat) + 14 = 15 := rfl
  rw [h15]
  rcases hf 15 with hc | hc <;> rw [hc] <;>
    exact ⟨_, rfl, rfl, by simp, rfl, rfl, by simpa using hw⟩

/-- Claim C4, witness: a sink that times out on every attempt exhausts all
15 default attempts with 14 bounded waits and a dropped batch. -/
theorem send_batch_default_retry_exhaustion_witness :
    ∃ res, send_batch (fun _ => .tooSlow) none none none = .ok res ∧
      res.attempts = 15 ∧ res.waits.length = 14 ∧
      res.delivered = false ∧ res.droppedLog.isSome = true ∧
      ∀ w ∈ res.waits, 0 ≤ w ∧ w ≤ 60 :=
  send_batch_default_retry_exhaustion (fun _ => .tooSlow) (fun _ => Or.inl rfl)

/-- Claim C8: `handle_connection` always closes the stream — on the normal
end-of-stream path and on every framing-error path alike — under the
bounded 30-unit grace period, and once the line framer signals an
oversized or truncated line while chunks are being processed, the
connection terminates immediately: any further received data changes
nothing and in particular no further event is pushed to the queue. -/
theorem handle_connection_close_and_abort {σ : Type}
    (recv : σ → List Nat → Except FramingError (σ × List Event))
    (close : σ → Except FramingError Unit) (s : σ) (chunks : List (List Nat)) :
    (handle_connection recv close s chunks).closed = true ∧
    (handle_connection recv close s chunks).closeGrace = 30 ∧
    ∀ extra e, (run_chunks recv s chunks).2 = .error e →
      handle_connection recv close s (chunks ++ extra) =
        handle_connection recv close s chunks := by
  refine ⟨?_, ?_, ?_⟩
  · unfold handle_connection
    dsimp only
    split <;> first
      | rfl
      | (split <;> first | rfl | (split <;> rfl))
  · unfold handle_connection
    dsimp only
    split <;> first
      | rfl
      | (split <;> first | rfl | (split <;> rfl))
  · intro extra e herr
    unfold handle_connection
    rw [run_chunks_append_error recv s chunks extra e herr]

/-- Claim C8, witness: a framer that rejects the chunk `[1]` as oversized
terminates the connection at that chunk — appending a further chunk `[2]`
changes nothing — and the stream is closed under the 30-unit grace. -/
theorem handle_connection_close_and_abort_witness :
    (handle_connection
      (fun (_ : Unit) c => if c = [1] then .error .bufferTooLarge else .ok ((), []))
      (fun _ => .ok ()) () [[1]]).closed = true ∧
    (handle_connection
      (fun (_ : Unit) c => if c = [1] then .error .bufferTooLarge else .ok ((), []))
      (fun _ => .ok ()) () [[1]]).closeGrace = 30 ∧
    handle_connection
      (fun (_ : Unit) c => if c = [1] then .error .bufferTooLarge else .ok ((), []))
      (fun _ => .ok ()) () ([[1]] ++ [[2]]) =
      handle_connection
        (fun (_ : Unit) c => if c = [1] then .error .bufferTooLarge else .ok ((), []))
        (fun _ => .ok ()) () [[1]] := by
  obtain ⟨h1, h2, h3⟩ := handle_connection_close_and_abort
    (fun (_ : Unit) c => if c = [1] then .error .bufferTooLarge else .ok ((), []))
    (fun _ => .ok ()) () [[1]]
  exact ⟨h1, h2, h3 [[2]] .bufferTooLarge rfl⟩

/-- With nondecreasing arrival instants, the accumulation loop collects
exactly `min size (number of arrivals within the deadline)` events:
it stops at the size bound or at the deadline, whichever bites first. -/
theorem accumulate_length (deadline : ℚ) :
    ∀ (size : Nat) (arrivals : List (ℚ × Event)),
      List.Sorted (· ≤ ·) (arrivals.map Prod.fst) →
      (accumulate deadline size arrivals).1.length =
        min size (arrivals.countP fun a => decide (a.1 ≤ deadline)) := by
  intro size arrivals
  induction arrivals generalizing size with
  | nil =>
    intro _
    match size with
    | 0 => simp [accumulate]
    | _ + 1 => simp [accumulate]
  | cons a rest ih =>
    intro hs
    obtain ⟨t, e⟩ := a
    rw [List.map_cons, List.sorted_cons] at hs
    match size with
    | 0 => simp [accumulate]
    | n + 1 =>
      rw [accumulate]
      by_cases ht : t ≤ deadline
      · rw [if_pos ht]
        simp only [List.length_cons, List.countP_cons, ih n hs.2]
        have h1 : (if decide ((t, e).1 ≤ deadline) = true then 1 else 0) = 1 := by
          simp [ht]
        rw [h1]
        omega
      · rw [if_neg ht]
        have hz : rest.countP (fun a => decide (a.1 ≤ deadline)) = 0 := by
          rw [List.countP_eq_zero]
          intro b hb
          have hbt : t ≤ b.1 := hs.1 b.1 (List.mem_map_of_mem Prod.fst hb)
          simp only [decide_eq_true_eq]
          intro hle
          exact ht (le_trans hbt hle)
        simp [List.countP_cons, hz, ht]

/-- Claim C7: one dispatcher cycle accumulates dequeued events until the
batch size (default 500) is reached or the batch timeout (default 30)
elapses since the cycle started — the accumulated count is exactly the
minimum of the size bound and the arrivals within the deadline — and a
cycle that accumulated zero events spawns no send task at all. -/
theorem sender_cycle_bounds (g : Nat → Nat) (c : Nat) (batch_size : Option Nat)
    (batch_timeout : Option ℚ) (start : ℚ) (arrivals : List (ℚ × Event))
    (hs : List.Sorted (· ≤ ·) (arrivals.map Prod.fst)) :
    (accumulate (start + batch_timeout.getD 30) (batch_size.getD 500) arrivals).1.length =
      min (batch_size.getD 500)
        (arrivals.countP fun a => decide (a.1 ≤ start + batch_timeout.getD 30)) ∧
    ((accumulate (start + batch_timeout.getD 30) (batch_size.getD 500) arrivals).1 = [] →
      sender_cycle g c batch_size batch_timeout start arrivals = []) := by
  constructor
  · exact accumulate_length _ _ _ hs
  · intro hempty
    unfold sender_cycle
    dsimp only
    rw [hempty]
    rfl

/-- Claim C7, witness: two promptly arriving events under the default
bounds accumulate to both of them (`min 500 2 = 2`), and the empty-batch
clause applies to this cycle vacuously but type-correctly. -/
theorem sender_cycle_bounds_witness :
    (accumulate ((0 : ℚ) + (none : Option ℚ).getD 30) ((none : Option Nat).getD 500)
        [((1 : ℚ), (⟨⟨⟨2018, 1, 1⟩, 0⟩, 0⟩ : Event)), ((2 : ℚ), ⟨⟨⟨2018, 1, 1⟩, 0⟩, 1⟩)]).1.length =
      min ((none : Option Nat).getD 500)
        (List.countP (fun a => decide (a.1 ≤ (0 : ℚ) + (none : Option ℚ).getD 30))
          [((1 : ℚ), (⟨⟨⟨2018, 1, 1⟩, 0⟩, 0⟩ : Event)), ((2 : ℚ), ⟨⟨⟨2018, 1, 1⟩, 0⟩, 1⟩)]) ∧
    ((accumulate ((0 : ℚ) + (none : Option ℚ).getD 30) ((none : Option Nat).getD 500)
        [((1 : ℚ), (⟨⟨⟨2018, 1, 1⟩, 0⟩, 0⟩ : Event)), ((2 : ℚ), ⟨⟨⟨2018, 1, 1⟩, 0⟩, 1⟩)]).1 = [] →
      sender_cycle id 0 none none 0
        [((1 : ℚ), (⟨⟨⟨2018, 1, 1⟩, 0⟩, 0⟩ : Event)), ((2 : ℚ), ⟨⟨⟨2018, 1, 1⟩, 0⟩, 1⟩)] = []) :=
  sender_cycle_bounds id 0 none none 0
    [((1 : ℚ), ⟨⟨⟨2018, 1, 1⟩, 0⟩, 0⟩), ((2 : ℚ), ⟨⟨⟨2018, 1, 1⟩, 0⟩, 1⟩)]
    (by simp [List.sorted_cons])

/-- First element of a `dropWhile` result fails the predicate. -/
theorem dropWhile_head_false {α : Type} (p : α → Bool) (l : List α) (x : α)
    (xs : List α) (h : List.dropWhile p l = x :: xs) : p x = false := by
  induction l with
  | nil => simp at h
  | cons a t ih =>
    rw [List.dropWhile_cons] at h
    by_cases hp : p a = true
    · rw [if_pos hp] at h
      exact ih h
    · rw [if_neg hp] at h
      injection h with h1 h2
      subst h1
      simpa using hp

/-- Concatenating the groups produced by `pyGroupByAux` restores the input
list, provided the fuel covers the list length. -/
theorem pyGroupByAux_flatten {α κ : Type} [DecidableEq κ] (key : α → κ) :
    ∀ (fuel : Nat) (l : List α), l.length ≤ fuel →
      ((pyGroupByAux key fuel l).map Prod.snd).flatten = l := by
  intro fuel
  induction fuel with
  | zero =>
    intro l hl
    match l with
    | [] => rfl
    | a :: rest => exact absurd hl (by simp)
  | succ n ih =>
    intro l hl
    match l with
    | [] => rfl
    | a :: rest =>
      have hdwlen : (rest.dropWhile fun x => decide (key x = key a)).length ≤ n := by
        have h1 : (rest.dropWhile fun x => decide (key x = key a)).length ≤ rest.length :=
          (List.dropWhile_sublist _).length_le
      
        simp only [List.length_cons] at hl
        omega
      simp only [pyGroupByAux, List.map_cons, List.flatten_cons]
      rw [ih _ hdwlen, List.cons_append, List.takeWhile_append_dropWhile]

/-- Every group produced by `pyGroupByAux` is nonempty, is headed by an
element whose key is the group key, and contains only elements of that
key. -/
theorem pyGroupByAux_mem {α κ : Type} [DecidableEq κ] (key : α → κ) :
    ∀ (fuel : Nat) (l : List α), ∀ p ∈ pyGroupByAux key fuel l,
      ∃ x xs, p.2 = x :: xs ∧ key x = p.1 ∧ ∀ y ∈ p.2, key y = p.1 := by
  intro fuel
  induction fuel with
  | zero =>
    intro l p hp
    simp [pyGroupByAux] at hp
  | succ n ih =>
    intro l p hp
    match l with
    | [] => simp [pyGroupByAux] at hp
    | a :: rest =>
      simp only [pyGroupByAux, List.mem_cons] at hp
      rcases hp with rfl | hp
    
      · refine ⟨a, _, rfl, rfl, ?_⟩
        intro y hy
        rcases List.mem_cons.mp hy with rfl | hy
        · rfl
        · have := List.mem_takeWhile_imp hy
          simpa using this
      · exact ih _ p hp

/-- When the input is sorted by key, the group keys of `pyGroupByAux` are
strictly increasing. -/
theorem pyGroupByAux_keys_pairwise {α κ : Type} [DecidableEq κ] [LinearOrder κ]
    (key : α → κ) :
    ∀ (fuel : Nat) (l : List α), l.length ≤ fuel →
      List.Sorted (fun a b => key a ≤ key b) l →
      List.Pairwise (fun p q => p.1 < q.1) (pyGroupByAux key fuel l) := by
  intro fuel
  induction fuel with
  | zero =>
    intro l _ _
    simp [pyGroupByAux]
  | succ n ih =>
    intro l hl hs
    match l with
    | [] => simp [pyGroupByAux]
    | a :: rest =>
      rw [List.sorted_cons] at hs
      have hdwsub : (rest.dropWhile fun x => decide (key x = key a)).Sublist rest :=
        List.dropWhile_sublist _
      have hdwlen : (rest.dropWhile fun x => decide (key x = key a)).length ≤ n := by
        have h1 := hdwsub.length_le
        simp only [List.length_cons] at hl
        omega
      simp only [pyGroupByAux]
      constructor
      · intro q hq
        obtain ⟨x, xs, hx2, hxkey, -⟩ := pyGroupByAux_mem key n _ q hq
        have hxdw : x ∈ rest.dropWhile fun y => decide (key y = key a) := by
          have hxflat :
              x ∈ ((pyGroupByAux key n
                (rest.dropWhile fun y => decide (key y = key a))).map Prod.snd).flatten :=
            List.mem_flatten.mpr ⟨q.2, List.mem_map_of_mem Prod.snd hq, by
              rw [hx2]; exact List.mem_cons_self x xs⟩
          rwa [pyGroupByAux_flatten key n _ hdwlen] at hxflat
        have hsdw : List.Sorted (fun a b => key a ≤ key b)
            (rest.dropWhile fun y => decide (key y = key a)) :=
          List.Pairwise.sublist hdwsub hs.2
        cases hdwe : rest.dropWhile fun y => decide (key y = key a) with
        | nil => rw [hdwe] at hxdw; exact absurd hxdw (List.not_mem_nil x)
        | cons h dtail =>
          have hph : (fun y => decide (key y = key a)) h = false :=
            dropWhile_head_false _ rest h dtail hdwe
          have hha : key h ≠ key a := by simpa using hph
          have hhrest : h ∈ rest := hdwsub.subset (hdwe ▸ List.mem_cons_self h dtail)
          have hak : key a ≤ key h := hs.1 h hhrest
          have halt : key a < key h := lt_of_le_of_ne hak (Ne.symm hha)
          have hhx : key h ≤ key x := by
            rw [hdwe] at hxdw hsdw
            rcases List.mem_cons.mp hxdw with rfl | hxin
            · exact le_refl _
            · exact (List.sorted_cons.mp hsdw).1 x hxin
          show key a < q.1
          rw [← hxkey]
          exact lt_of_lt_of_le halt hhx
      · exact ih _ hdwlen (List.Pairwise.sublist hdwsub hs.2)

/-- Identifier decoration does not change the group keys. -/
theorem assignIds_map_fst (g : Nat → Nat) :
    ∀ (c : Nat) (groups : List (List Nat × List Event)),
      (assignIds g c groups).map Prod.fst = groups.map Prod.fst := by
  intro c groups
  induction groups generalizing c with
  | nil => rfl
  | cons p rest ih =>
    obtain ⟨k, rows⟩ := p
    simp only [assignIds, List.map_cons, ih]

/-- Identifier decoration does not change the rows carried by each group:
stripping the decoration gives back exactly the grouped events. -/
theorem assignIds_map_json (g : Nat → Nat) :
    ∀ (c : Nat) (groups : List (List Nat × List Event)),
      (assignIds g c groups).map (fun b => b.2.map Record.json) =
        groups.map Prod.snd := by
  intro c groups
  induction groups generalizing c with
  | nil => rfl
  | cons p rest ih =>
    obtain ⟨k, rows⟩ := p
    simp only [assignIds, List.map_cons, ih, List.map_map]
    congr 1
    have : (Record.json ∘ fun p : Nat × Event => Record.mk (g (c + p.1)) (unstructure p.2)) =
        Prod.snd := rfl
    rw [this, List.enum_map_snd]

/-- Every decorated batch comes from a group with the same key whose rows
are exactly the batch rows stripped of their identifiers. -/
theorem assignIds_mem (g : Nat → Nat) :
    ∀ (c : Nat) (groups : List (List Nat × List Event)) (b : List Nat × List Record),
      b ∈ assignIds g c groups →
      ∃ p ∈ groups, b.1 = p.1 ∧ b.2.map Record.json = p.2 := by
  intro c groups
  induction groups generalizing c with
  | nil => intro b hb; simp [assignIds] at hb
  | cons p rest ih =>
    obtain ⟨k, rows⟩ := p
    intro b hb
    simp only [assignIds, List.mem_cons] at hb
    rcases hb with rfl | hb
    · refine ⟨(k, rows), List.mem_cons_self _ _, rfl, ?_⟩
      simp only [List.map_map]
      have : (Record.json ∘ fun p : Nat × Event => Record.mk (g (c + p.1)) (unstructure p.2)) =
          Prod.snd := rfl
      rw [this, List.enum_map_snd]
    · obtain ⟨q, hq, h1, h2⟩ := ih (c + rows.length) b hb
      exact ⟨q, List.mem_cons_of_mem _ hq, h1, h2⟩

/-- The identifiers drawn by `assignIds` are exactly the draws
`g c, g (c+1), ...`, one per row, in generation order. -/
theorem assignIds_ids (g : Nat → Nat) :
    ∀ (c : Nat) (groups : List (List Nat × List Event)),
      allInsertIds (assignIds g c groups) =
        (List.range (groups.map Prod.snd).flatten.length).map fun i => g (c + i) := by
  intro c groups
  induction groups generalizing c with
  | nil => rfl
  | cons p rest ih
    =>
    obtain ⟨k, rows⟩ := p
    simp only [assignIds, allInsertIds, List.map_cons, List.flatten_cons, List.length_append]
    rw [List.range_add, List.map_append, List.map_map, List.map_map]
    congr 1
    · have h1 : (Record.insertId ∘ fun p : Nat × Event =>
          Record.mk (g (c + p.1)) (unstructure p.2)) = (fun i => g (c + i)) ∘ Prod.fst := rfl
      rw [h1, ← List.map_map, List.enum_map_fst]
    · have hins := ih (c + rows.length)
      simp only [allInsertIds] at hins
      rw [hins]
      congr 1
      funext i
      simp [Nat.add_assoc]

/-- Claim C2: `compute_batches` produces an exact partition of its input —
stripping identifiers, the yielded batches together contain exactly the
input events (as a permutation); every record sits in the batch keyed by
its own event's partition key; the yielded keys are pairwise distinct,
one batch per distinct key; and the yielded keys are exactly the keys
occurring among the input events. -/
theorem compute_batches_partition (g : Nat → Nat) (c : Nat) (items : List Event) :
    (((compute_batches g c items).map fun b => b.2.map Record.json).flatten).Perm items ∧
    (∀ b ∈ compute_batches g c items, ∀ r ∈ b.2, extract_item_date r.json = b.1) ∧
    ((compute_batches g c items).map Prod.fst).Nodup ∧
    (∀ k, k ∈ (compute_batches g c items).map Prod.fst ↔
      ∃ e ∈ items, extract_item_date e = k) := by
  have hperm : (List.insertionSort eventLE items).Perm items := List.perm_insertionSort _ _
  have hsorted : List.Sorted (fun a b => extract_item_date a ≤ extract_item_date b)
      (List.insertionSort eventLE items) := List.sorted_insertionSort eventLE items
  have hflat : ((pyGroupBy extract_item_date (List.insertionSort eventLE items)).map
      Prod.snd).flatten = List.insertionSort eventLE items := by
    simp only [pyGroupBy]
    exact pyGroupByAux_flatten _ _ _ (le_refl _)
  have hcb : compute_batches g c items =
      assignIds g c (pyGroupBy extract_item_date (List.insertionSort eventLE items)) := rfl
  have hmemg : ∀ p ∈ pyGroupBy extract_item_date (List.insertionSort eventLE items),
      ∃ x xs, p.2 = x :: xs ∧ extract_item_date x = p.1 ∧
        ∀ y ∈ p.2, extract_item_date y = p.1 := by
    simp only [pyGroupBy]
    exact fun p hp => pyGroupByAux_mem _ _ _ p hp
  refine ⟨?_, ?_, ?_, ?_⟩
  · rw [hcb, assignIds_map_json, hflat]
    exact hperm
  · intro b hb r hr
    rw [hcb] at hb
    obtain ⟨p, hp, hb1, hb2⟩ := assignIds_mem g c _ b hb
    obtain ⟨x, xs, hx2, hxk, hall⟩ := hmemg p hp
    have hrj : r.json ∈ p.2 := by
      rw [← hb2]
      exact List.mem_map_of_mem Record.json hr
    rw [hb1]
    exact hall r.json hrj
  · rw [hcb, assignIds_map_fst]
    have hpw : List.Pairwise (fun p q => p.1 < q.1)
        (pyGroupBy extract_item_date (List.insertionSort eventLE items)) := by
      simp only [pyGroupBy]
      exact pyGroupByAux_keys_pairwise _ _ _ (le_refl _) hsorted
    exact List.pairwise_map.mpr (hpw.imp fun hlt => ne_of_lt hlt)
  · intro k
    rw [hcb, assignIds_map_fst]
    constructor
    · intro hk
      obtain ⟨p, hp, rfl⟩ := List.mem_map.mp hk
      obtain ⟨x, xs, hx2, hxk, -⟩ := hmemg p hp
      have hxL : x ∈ List.insertionSort eventLE items := by
        rw [← hflat]
        exact List.mem_flatten.mpr ⟨p.2, List.mem_map_of_mem Prod.snd hp,
          by rw [hx2]; exact List.mem_cons_self x xs⟩
      exact ⟨x, hperm.mem_iff.mp hxL, hxk⟩
    · rintro ⟨e, he, rfl⟩
      have heL : e ∈ List.insertionSort eventLE items := hperm.mem_iff.mpr he
      rw [← hflat] at heL
      obtain ⟨l, hl, hel⟩ := List.mem_flatten.mp heL
      obtain ⟨p, hp, rfl⟩ := List.mem_map.mp hl
      obtain ⟨x, xs, hx2, hxk, hall⟩ := hmemg p hp
      exact List.mem_map.mpr ⟨p, hp, (hall e hel).symm⟩

/-- Claim C9: when the identifier generator yields distinct values on
distinct draws (injectivity of the draw sequence), every record of a
`compute_batches` result carries an identifier distinct from every other
record's — within each batch and across the whole result — and a repeated
`compute_batches` call on the same input (continuing the draw counter)
shares no identifier with the first call. -/
theorem compute_batches_fresh_ids (g : Nat → Nat) (c : Nat) (items : List Event)
    (hg : Function.Injective g) :
    (∀ b ∈ compute_batches g c items, (b.2.map Record.insertId).Nodup) ∧
    (allInsertIds (compute_batches g c items)).Nodup ∧
    ∀ i ∈ allInsertIds (compute_batches g c items),
      i ∉ allInsertIds (compute_batches g (c + items.length) items) := by
  have hN : ((pyGroupBy extract_item_date (List.insertionSort eventLE items)).map
      Prod.snd).flatten.length = items.length := by
    have hflat : ((pyGroupBy extract_item_date (List.insertionSort eventLE items)).map
        Prod.snd).flatten = List.insertionSort eventLE items := by
      simp only [pyGroupBy]
      exact pyGroupByAux_flatten _ _ _ (le_refl _)
    rw [hflat]
    exact (List.perm_insertionSort eventLE items).length_eq
  have hids : ∀ c' : Nat, allInsertIds (compute_batches g c' items) =
      (List.range items.length).map fun i => g (c' + i) := by
    intro c'
    have hcb : compute_batches g c' items =
        assignIds g c' (pyGroupBy extract_item_date (List.insertionSort eventLE items)) := rfl
    rw [hcb, assignIds_ids, hN]
  have hinj : ∀ c' : Nat, Function.Injective fun i => g (c' + i) := by
    intro c' i j h
    exact Nat.add_left_cancel (hg h)
  have hnodup : (allInsertIds (compute_batches g c items)).Nodup := by
    rw [hids c]
    exact (List.nodup_range items.length).map (hinj c)
  refine ⟨?_, hnodup, ?_⟩
  · intro b hb
    have := (List.nodup_flatten.mp hnodup).1
    exact this (b.2.map Record.insertId)
      (List.mem_map_of_mem (fun b => b.2.map Record.insertId) hb)
  · intro i hi hcon
    rw [hids c] at hi
    rw [hids (c + items.length)] at hcon
    obtain ⟨a, ha, rfl⟩ := List.mem_map.mp hi
    obtain ⟨b, hb, heq⟩ := List.mem_map.mp hcon
    have hab := hg heq
    rw [List.mem_range] at ha hb
    omega

/-- Claim C9, witness: with the identity draw sequence and a two-event
input, the identifiers are fresh within the call and across a repeated
call. -/
theorem compute_batches_fresh_ids_witness :
    (∀ b ∈ compute_batches id 0 [⟨⟨⟨2018, 1, 1⟩, 0⟩, 3⟩, ⟨⟨⟨2018, 1, 2⟩, 0⟩, 4⟩],
      (b.2.map Record.insertId).Nodup) ∧
    (allInsertIds (compute_batches id 0
      [⟨⟨⟨2018, 1, 1⟩, 0⟩, 3⟩, ⟨⟨⟨2018, 1, 2⟩, 0⟩, 4⟩])).Nodup ∧
    ∀ i ∈ allInsertIds (compute_batches id 0
        [⟨⟨⟨2018, 1, 1⟩, 0⟩, 3⟩, ⟨⟨⟨2018, 1, 2⟩, 0⟩, 4⟩]),
      i ∉ allInsertIds (compute_batches id 2
        [⟨⟨⟨2018, 1, 1⟩, 0⟩, 3⟩, ⟨⟨⟨2018, 1, 2⟩, 0⟩, 4⟩]) :=
  compute_batches_fresh_ids id 0 [⟨⟨⟨2018, 1, 1⟩, 0⟩, 3⟩, ⟨⟨⟨2018, 1, 2⟩, 0⟩, 4⟩]
    (fun _ _ h => h)

/-- The fuel of `natDecimalAux` is irrelevant once it exceeds the argument. -/
theorem natDecimalAux_congr :
    ∀ (n f1 f2 : Nat), n < f1 → n < f2 → natDecimalAux f1 n = natDecimalAux f2 n := by
  intro n
  induction n using Nat.strong_induction_on with
  | _ n ih =>
    intro f1 f2 h1 h2
    match f1, f2 with
    | k1 + 1, k2 + 1 =>
      by_cases h10 : n < 10
      · simp [natDecimalAux, h10]
      · have hn0 : 0 < n := by omega
        have hdiv : n / 10 < n := Nat.div_lt_self hn0 (by norm_num)
        simp only [natDecimalAux, h10, if_neg]
        rw [ih (n / 10) hdiv k1 k2 (by omega) (by omega)]

/-- Recursion equation of `natDecimal` on numbers of two or more digits. -/
theorem natDecimal_step (n : Nat) (h : 10 ≤ n) :
    natDecimal n = natDecimal (n / 10) ++ [n % 10] := by
  have hn0 : 0 < n := by omega
  have hdiv : n / 10 < n := Nat.div_lt_self hn0 (by norm_num)
  unfold natDecimal
  rw [natDecimalAux]
  rw [if_neg (by omega)]
  rw [natDecimalAux_congr (n / 10) n (n / 10 + 1) hdiv (Nat.lt_succ_self _)]

/-- Single-digit numbers render as one digit. -/
theorem natDecimal_lt10 (n : Nat) (h : n < 10) : natDecimal n = [n] := by
  unfold natDecimal
  rw [natDecimalAux]
  rw [if_pos h]

/-- Reading a rendered digit string back yields the number: `natDecimal`
is a section of `digitsVal`, hence injective. -/
theorem digitsVal_natDecimal : ∀ n : Nat, digitsVal (natDecimal n) = n := by
  intro n
  induction n using Nat.strong_induction_on with
  | _ n ih =>
    by_cases h10 : n < 10
    · rw [natDecimal_lt10 n h10]
      simp [digitsVal]
    · have hn0 : 0 < n := by omega
      have hdiv : n / 10 < n := Nat.div_lt_self hn0 (by norm_num)
      rw [natDecimal_step n (by omega)]
      unfold digitsVal
      rw [List.foldl_append]
      have hrec : List.foldl (fun a d => 10 * a + d) 0 (natDecimal (n / 10)) = n / 10 :=
        ih (n / 10) hdiv
      rw [hrec]
      simp only [List.foldl_cons, List.foldl_nil]
      omega

/-- Two numbers with the same digit string are equal. -/
theorem natDecimal_inj (a b : Nat) (h : natDecimal a = natDecimal b) : a = b := by
  have ha := digitsVal_natDecimal a
  have hb := digitsVal_natDecimal b
  rw [← ha, ← hb, h]

/-- Digit-string length of a single-digit number. -/
theorem natDecimal_length_lt10 (n : Nat) (h : n < 10) : (natDecimal n).length = 1 := by
  rw [natDecimal_lt10 n h]
  rfl

/-- Digit-string length grows by one per extra digit. -/
theorem natDecimal_length_step (n : Nat) (h : 10 ≤ n) :
    (natDecimal n).length = (natDecimal (n / 10)).length + 1 := by
  rw [natDecimal_step n h, List.length_append]
  rfl

/-- Four-digit years render as exactly four digits. -/
theorem natDecimal_length_year (y : Nat) (h1 : 1000 ≤ y) (h2 : y ≤ 9999) :
    (natDecimal y).length = 4 := by
  have s1 : (natDecimal y).length = (natDecimal (y / 10)).length + 1 :=
    natDecimal_length_step y (by omega)
  have s2 : (natDecimal (y / 10)).length = (natDecimal (y / 10 / 10)).length + 1 :=
    natDecimal_length_step _ (by omega)
  have s3 : (natDecimal (y / 10 / 10)).length = (natDecimal (y / 10 / 10 / 10)).length + 1 :=
    natDecimal_length_step _ (by omega)
  have s4 : (natDecimal (y / 10 / 10 / 10)).length = 1 :=
    natDecimal_length_lt10 _ (by omega)
  omega

/-- Recovery of the day-of-year from the month/day-of-year part of a
`"YYYYMDDD"` key: a key part starting with digit 1 is either month 1
followed by a 1-2 digit day of year, or a two-digit month followed by a
3-digit day of year (days 274 and later); other leading digits are
single-digit months. -/
def recoverRest : List Nat → Option Nat
  | [] => none
  | d :: rest =>
    if d = 1 then
      if rest.length ≤ 2 then some (digitsVal rest)
      else
        match rest with
        | [] => none
        | _ :: rest2 => some (digitsVal rest2)
    else some (digitsVal rest)

/-- No month is longer than 31 days. -/
theorem daysInMonth_le31 (leap : Bool) (m : Nat) : daysInMonth leap m ≤ 31 := by
  unfold daysInMonth
  split <;> first | omega | (split <;> omega)

/-- The month/day-of-year part of a valid date's key determines its day of
the year (checked over all valid month/day pairs of both year kinds). -/
theorem recoverRest_key (leap : Bool) :
    ∀ m, m < 13 → ∀ d, d < 32 →
      (1 ≤ m ∧ 1 ≤ d ∧ d ≤ daysInMonth leap m) →
      recoverRest (natDecimal m ++ natDecimal (daysBefore leap m + d)) =
        some (daysBefore leap m + d) := by
  cases leap <;> decide

/-- Inverse of `dayOfYear` within one year: walk the months subtracting
their lengths. -/
def doyToDateAux (leap : Bool) : Nat → Nat → Nat → Nat × Nat
  | 0, m, doy => (m, doy)
  | fuel + 1, m, doy =>
    if doy ≤ daysInMonth leap m then (m, doy)
    else doyToDateAux leap fuel (m + 1) (doy - daysInMonth leap m)

/-- Month and day of month from a day of the year. -/
def doyToDate (leap : Bool) (doy : Nat) : Nat × Nat :=
  doyToDateAux leap 11 1 doy

/-- Within one year kind, the day of the year determines month and day
(checked over all valid month/day pairs of both year kinds). -/
theorem doyToDate_dayOfYear (leap : Bool) :
    ∀ m, m < 13 → ∀ d, d < 32 →
      (1 ≤ m ∧ 1 ≤ d ∧ d ≤ daysInMonth leap m) →
      doyToDate leap (daysBefore leap m + d) = (m, d) := by
  cases leap <;> decide

/-- Two valid dates with four-digit years and the same `"YYYYMDDD"` key
are the same date. -/
theorem key_determines_date (d1 d2 : Date)
    (h1 : d1.validb = true) (h2 : d2.validb = true)
    (hy1 : 1000 ≤ d1.year) (hy2 : 1000 ≤ d2.year)
    (hk : natDecimal d1.year ++ (natDecimal d1.month ++ natDecimal (dayOfYear d1)) =
          natDecimal d2.year ++ (natDecimal d2.month ++ natDecimal (dayOfYear d2))) :
    d1 = d2 := by
  obtain ⟨y1, m1, dd1⟩ := d1
  obtain ⟨y2, m2, dd2⟩ := d2
  simp only [Date.validb, Bool.and_eq_true, decide_eq_true_eq] at h1 h2
  obtain ⟨⟨⟨⟨⟨hy1a, hy1b⟩, hm1a⟩, hm1b⟩, hd1a⟩, hd1b⟩ := h1
  obtain ⟨⟨⟨⟨⟨hy2a, hy2b⟩, hm2a⟩, hm2b⟩, hd2a⟩, hd2b⟩ := h2
  have hl1 : (natDecimal y1).length = 4 := natDecimal_length_year _ hy1 hy1b
  have hl2 : (natDecimal y2).length = 4 := natDecimal_length_year _ hy2 hy2b
  obtain ⟨hy, hrest⟩ := List.append_inj hk (by rw [hl1, hl2])
  have hyy : y1 = y2 := natDecimal_inj _ _ hy
  subst hyy
  simp only [dayOfYear] at hrest
  have hdm1 := daysInMonth_le31 (isLeap y1) m1
  have hdm2 := daysInMonth_le31 (isLeap y1) m2
  have r1 := recoverRest_key (isLeap y1) m1 (by omega) dd1 (by omega) ⟨hm1a, hd1a, hd1b⟩
  have r2 := recoverRest_key (isLeap y1) m2 (by omega) dd2 (by omega) ⟨hm2a, hd2a, hd2b⟩
  rw [hrest] at r1
  rw [r2] at r1
  have hdoy : daysBefore (isLeap y1) m2 + dd2 = daysBefore (isLeap y1) m1 + dd1 :=
    Option.some.inj r1
  have t1 := doyToDate_dayOfYear (isLeap y1) m1 (by omega) dd1 (by omega) ⟨hm1a, hd1a, hd1b⟩
  have t2 := doyToDate_dayOfYear (isLeap y1) m2 (by omega) dd2 (by omega) ⟨hm2a, hd2a, hd2b⟩
  rw [hdoy] at t2
  rw [t1] at t2
  injection t2 with hm hd
  subst hm
  subst hd
  rfl

/-- Claim C3, counterexample: the key format is ambiguous across years of
different digit counts — 1 September of year 199 (month 9, day-of-year
244) and 13 February of year 1999 (month 2, day-of-year 44) are valid
dates on different calendar days, yet both render as the key
`"1999244"`, so two events on these days are assigned the same partition
key and land in the same batch. -/
theorem extract_item_date_collision_counterexample :
    extract_item_date ⟨⟨⟨199, 9, 1⟩, 0⟩, 0⟩ = extract_item_date ⟨⟨⟨1999, 2, 13⟩, 0⟩, 0⟩ ∧
    (⟨⟨⟨199, 9, 1⟩, 0⟩, 0⟩ : Event).timestamp.date ≠
      (⟨⟨⟨1999, 2, 13⟩, 0⟩, 0⟩ : Event).timestamp.date ∧
    Date.validb ⟨199, 9, 1⟩ = true ∧ Date.validb ⟨1999, 2, 13⟩ = true := by
  decide

/-- Claim C3, amended: for valid dates whose years have four decimal
digits (1000-9999), the partition key of `extract_item_date` determines
and is determined by the calendar day: two events get the same key
exactly when their timestamps fall on the same calendar day.  (The
restriction to four-digit years is forced by the counterexample: a
three-digit year aliases with a four-digit year.) -/
theorem extract_item_date_same_day_iff (e1 e2 : Event)
    (h1 : e1.timestamp.date.validb = true) (h2 : e2.timestamp.date.validb = true)
    (hy1 : 1000 ≤ e1.timestamp.date.year) (hy2 : 1000 ≤ e2.timestamp.date.year) :
    extract_item_date e1 = extract_item_date e2 ↔
      e1.timestamp.date = e2.timestamp.date := by
  constructor
  · intro hk
    unfold extract_item_date at hk
    rw [List.append_assoc, List.append_assoc] at hk
    exact key_determines_date _ _ h1 h2 hy1 hy2 hk
  · intro hd
    unfold extract_item_date
    rw [hd]

/-- Claim C3, witness: a leap day and the following day in 2024 are
different calendar days, and the theorem yields that their keys differ. -/
theorem extract_item_date_same_day_iff_witness :
    extract_item_date ⟨⟨⟨2024, 2, 29⟩, 7⟩, 1⟩ = extract_item_date ⟨⟨⟨2024, 3, 1⟩, 8⟩, 2⟩ ↔
      (⟨⟨⟨2024, 2, 29⟩, 7⟩, 1⟩ : Event).timestamp.date =
        (⟨⟨⟨2024, 3, 1⟩, 8⟩, 2⟩ : Event).timestamp.date :=
  extract_item_date_same_day_iff ⟨⟨⟨2024, 2, 29⟩, 7⟩, 1⟩ ⟨⟨⟨2024, 3, 1⟩, 8⟩, 2⟩
    (by decide) (by decide) (by decide) (by decide)
